import Mathlib

/-!
Verification of the `lms_enjoyers` repository slice: the markdown
rendering utility, the root-page HTTP surface, and the
`create_demo_assignment` management command.  Pure functions are embedded
as Lean functions over `List Char` / `String`; the ORM state touched by
the management command is embedded as an explicit `DB` record and the
command as a state-passing function.
-/

namespace LMS

/-! ### Substring infrastructure

`pfx pat l` decides whether `pat` is a leading segment of `l`, and
`isSub pat l` whether `pat` occurs contiguously anywhere inside `l`.
These model Python's `in` operator on strings, as used by the tests. -/

def pfx : List Char → List Char → Bool
  | [], _ => true
  | _ :: _, [] => false
  | a :: as, b :: bs => a == b && pfx as bs

def isSub (pat : List Char) : List Char → Bool
  | [] => pfx pat []
  | c :: rest => pfx pat (c :: rest) || isSub pat rest

/-- Python's `pat in s` on strings. -/
def occurs (pat s : String) : Bool := isSub pat.toList s.toList

theorem pfx_iff {pat l : List Char} : pfx pat l = true ↔ ∃ t, l = pat ++ t := by
  induction pat generalizing l with
  | nil => simp [pfx]
  | cons a as ih =>
    cases l with
    | nil => simp [pfx]
    | cons b bs =>
      simp only [pfx, Bool.and_eq_true, beq_iff_eq, ih]
      constructor
      · rintro ⟨rfl, t, rfl⟩; exact ⟨t, rfl⟩
      · rintro ⟨t, ht⟩
        injection ht with h1 h2
        exact ⟨h1.symm, t, h2⟩

theorem pfx_append_self (l k : List Char) : pfx l (l ++ k) = true :=
  pfx_iff.mpr ⟨k, rfl⟩

theorem exists_of_isSub {pat l : List Char} (h : isSub pat l = true) :
    ∃ s t, l = s ++ pat ++ t := by
  induction l with
  | nil =>
    simp only [isSub] at h
    obtain ⟨t, ht⟩ := pfx_iff.mp h
    exact ⟨[], t, ht⟩
  | cons c rest ih =>
    simp only [isSub, Bool.or_eq_true] at h
    rcases h with h | h
    · obtain ⟨t, ht⟩ := pfx_iff.mp h
      exact ⟨[], t, by simpa using ht⟩
    · obtain ⟨s, t, ht⟩ := ih h
      exact ⟨c :: s, t, by simp [ht]⟩

/-! ### Markdown rendering

Modelled from the spec: the repository's `render_markdown` utility
(`apps/core/utils.py`, absent from the reviewed files; its tests are
`src/apps/core/tests/test_markdown.py`) "wraps a third-party
markdown-to-HTML converter and an HTML sanitizer to produce safe HTML
from user-authored markdown (including table support)", with "script
tags stripped".  The converter below handles `#` headings, `*` emphasis
and pipe tables; the sanitizer is allowlist-based in the style of
`bleach`: a `<` that does not open a tag on the allowlist is escaped to
`&lt;`. -/

def allowedTags : List String :=
  ["h1", "h2", "h3", "h4", "h5", "h6", "p", "em", "i", "b", "strong",
   "ul", "ol", "li", "a", "code", "pre", "blockquote",
   "table", "thead", "tbody", "tr", "th", "td", "hr", "br", "span", "div"]

def dropSlash (l : List Char) : List Char :=
  if l.head? = some '/' then l.tail else l

def tagNameAt (l : List Char) : List Char :=
  (dropSlash l).takeWhile (fun c => c.isAlphanum)

def isAllowedTag (l : List Char) : Bool :=
  allowedTags.any (fun s => s == String.mk (tagNameAt l))

def sanitizeChars : List Char → List Char
  | [] => []
  | c :: rest =>
    if c = '<' then
      if isAllowedTag rest then '<' :: sanitizeChars rest
      else '&' :: 'l' :: 't' :: ';' :: sanitizeChars rest
    else c :: sanitizeChars rest

def trimChars (l : List Char) : List Char :=
  ((l.dropWhile Char.isWhitespace).reverse.dropWhile Char.isWhitespace).reverse

def splitOnChar (sep : Char) : List Char → List (List Char)
  | [] => [[]]
  | c :: rest =>
    if c = sep then [] :: splitOnChar sep rest
    else
      match splitOnChar sep rest with
      | [] => [[c]]
      | h :: t => (c :: h) :: t

def emphasize : List (List Char) → List Char
  | [] => []
  | [t] => t
  | [t, u] => t ++ '*' :: u
  | t :: e :: rest =>
    t ++ "<em>".toList ++ e ++ "</em>".toList ++ emphasize rest

def inlineHtml (l : List Char) : List Char := emphasize (splitOnChar '*' l)

def isTableLine (l : List Char) : Bool := pfx ['|'] (trimChars l)

def rowCells (l : List Char) : List (List Char) :=
  (((splitOnChar '|' (trimChars l)).drop 1).dropLast).map trimChars

def isSepCell (c : List Char) : Bool :=
  !c.isEmpty && c.all (fun x => x == '-' || x == ':')

def isSepRow (l : List Char) : Bool := (rowCells l).all isSepCell

def catLists (ls : List (List Char)) : List Char := ls.foldr (· ++ ·) []

def cellHtml (tag : List Char) (cell : List Char) : List Char :=
  ['<'] ++ tag ++ ['>'] ++ inlineHtml cell ++ ['<', '/'] ++ tag ++ ['>']

def rowHtml (tag : List Char) (l : List Char) : List Char :=
  "<tr>".toList ++ catLists ((rowCells l).map (cellHtml tag)) ++ "</tr>".toList

def tableHtml : List (List Char) → List Char
  | [] => []
  | hdr :: rest =>
    "<table><thead>".toList ++ rowHtml "th".toList hdr ++
      "</thead><tbody>".toList ++
      catLists ((rest.filter (fun r => !isSepRow r)).map (rowHtml "td".toList)) ++
      "</tbody></table>".toList

def lineHtml (l : List Char) : List Char :=
  let t := trimChars l
  if t.isEmpty then []
  else if pfx ['#', ' '] t then
    "<h1>".toList ++ inlineHtml (t.drop 2) ++ "</h1>".toList
  else "<p>".toList ++ inlineHtml t ++ "</p>".toList

def linesToHtml : List (List Char) → List (List Char) → List Char
  | tbl, [] => tableHtml tbl.reverse
  | tbl, l :: ls =>
    if isTableLine l then linesToHtml (l :: tbl) ls
    else tableHtml tbl.reverse ++ lineHtml l ++ linesToHtml [] ls

def markdownToChars (l : List Char) : List Char :=
  linesToHtml [] (splitOnChar '\n' l)

def render_markdown (s : String) : String :=
  String.mk (sanitizeChars (markdownToChars s.toList))

/-! ### The sanitizer never lets `<script` through -/

def scrChars : List Char := ['s', 'c', 'r', 'i', 'p', 't']

/-- An output list is `Safe` when every `<` in it is not followed by the
letters `script`. -/
inductive Safe : List Char → Prop
  | nil : Safe []
  | consNonLt {c : Char} {l : List Char} :
      c ≠ '<' → Safe l → Safe (c :: l)
  | consLt {l : List Char} :
      (∀ u, l ≠ scrChars ++ u) → Safe l → Safe ('<' :: l)

theorem safe_not_script {l : List Char} (h : Safe l) :
    ∀ s t, l ≠ s ++ ('<' :: scrChars) ++ t := by
  induction h with
  | nil =>
    intro s t hst
    simp [List.append_eq_nil] at hst
  | consNonLt hc _ ih =>
    intro s t hst
    cases s with
    | nil => exact hc (by injection hst)
    | cons x s' =>
      injection hst with _ h2
      exact ih s' t h2
  | consLt hns _ ih =>
    intro s t hst
    cases s with
    | nil =>
      injection hst with _ h2
      exact hns t (by simpa using h2)
    | cons x s' =>
      injection hst with _ h2
      exact ih s' t h2

theorem sanitize_append_alnum (l : List Char) (d : List Char)
    (h : ∀ c ∈ l, c.isAlphanum = true) :
    sanitizeChars (l ++ d) = l ++ sanitizeChars d := by
  induction l with
  | nil => rfl
  | cons c rest ih =>
    have hc : c ≠ '<' := by
      intro hlt
      have := h c (by simp)
      rw [hlt] at this
      exact absurd this (by decide)
    simp only [List.cons_append, sanitizeChars, if_neg hc]
    exact congrArg (List.cons c) (ih (fun x hx => h x (by simp [hx])))

theorem allowed_not_pfx_script :
    ∀ s ∈ allowedTags, pfx s.toList scrChars = false := by decide

theorem script_not_pfx_allowed :
    ∀ s ∈ allowedTags, pfx scrChars s.toList = false := by decide

theorem mem_of_isAllowedTag {l : List Char} (h : isAllowedTag l = true) :
    String.mk (tagNameAt l) ∈ allowedTags := by
  simp only [isAllowedTag, List.any_eq_true, beq_iff_eq] at h
  obtain ⟨s, hs, hseq⟩ := h
  exact hseq ▸ hs

theorem allowed_ne_script_ext {name : List Char}
    (hmem : String.mk name ∈ allowedTags) (k : List Char) :
    scrChars ≠ name ++ k := by
  intro hk
  have hp : pfx name scrChars = true := by
    rw [hk]; exact pfx_append_self name k
  have h2 : pfx name scrChars = false :=
    allowed_not_pfx_script (String.mk name) hmem
  rw [h2] at hp
  exact absurd hp (by decide)

theorem script_ne_allowed_ext {name : List Char}
    (hmem : String.mk name ∈ allowedTags) (k : List Char) :
    name ≠ scrChars ++ k := by
  intro hk
  have hp : pfx scrChars name = true := by
    rw [hk]; exact pfx_append_self scrChars k
  have h2 : pfx scrChars name = false :=
    script_not_pfx_allowed (String.mk name) hmem
  rw [h2] at hp
  exact absurd hp (by decide)

theorem sanitize_allowed_no_script {rest : List Char}
    (h : isAllowedTag rest = true) :
    ∀ u, sanitizeChars rest ≠ scrChars ++ u := by
  intro u heq
  cases rest with
  | nil => exact absurd h (by decide)
  | cons a r =>
    by_cases hslash : a = '/'
    · subst hslash
      simp only [sanitizeChars, if_neg (by decide : ¬ ('/' : Char) = '<')] at heq
      simp [scrChars] at heq
    · have hd : dropSlash (a :: r) = a :: r := by
        simp only [dropSlash, List.head?_cons, List.tail_cons]
        rw [if_neg]
        simp [hslash]
      by_cases ha : a.isAlphanum
      · have hsplit :
            (a :: r).takeWhile (fun c => c.isAlphanum) ++
              (a :: r).dropWhile (fun c => c.isAlphanum) = a :: r :=
          List.takeWhile_append_dropWhile _ _
        have hmem :
            String.mk ((a :: r).takeWhile (fun c => c.isAlphanum)) ∈
              allowedTags := by
          have := mem_of_isAllowedTag h
          rwa [tagNameAt, hd] at this
        have hname_alph :
            ∀ c ∈ (a :: r).takeWhile (fun c => c.isAlphanum),
              c.isAlphanum = true := by
          intro c hc
          exact List.mem_takeWhile_imp hc
        have hsan : sanitizeChars (a :: r) =
            (a :: r).takeWhile (fun c => c.isAlphanum) ++
              sanitizeChars ((a :: r).dropWhile (fun c => c.isAlphanum)) := by
          conv_lhs => rw [← hsplit]
          exact sanitize_append_alnum _ _ hname_alph
        rw [hsan] at heq
        rcases List.append_eq_append_iff.mp heq with ⟨k, hk1, _⟩ | ⟨k, hk1, _⟩
        · exact allowed_ne_script_ext hmem k hk1
        · exact script_ne_allowed_ext hmem k hk1
      · have hname : tagNameAt (a :: r) = [] := by
          simp only [tagNameAt, hd, List.takeWhile_cons]
          rw [if_neg (by simpa using ha)]
        rw [isAllowedTag, hname] at h
        exact absurd h (by decide)

theorem safe_sanitize (cs : List Char) : Safe (sanitizeChars cs) := by
  induction cs with
  | nil => exact .nil
  | cons c rest ih =>
    by_cases hc : c = '<'
    · subst hc
      by_cases ht : isAllowedTag rest
      · simp only [sanitizeChars, if_pos rfl, if_pos ht]
        exact .consLt (sanitize_allowed_no_script ht) ih
      · simp only [sanitizeChars, if_pos rfl, if_neg ht]
        exact .consNonLt (by decide) (.consNonLt (by decide)
          (.consNonLt (by decide) (.consNonLt (by decide) ih)))
    · simp only [sanitizeChars, if_neg hc]
      exact .consNonLt hc ih

theorem isSub_script_sanitize (cs : List Char) :
    isSub ('<' :: scrChars) (sanitizeChars cs) = false := by
  cases h : isSub ('<' :: scrChars) (sanitizeChars cs) with
  | false => rfl
  | true =>
    obtain ⟨s, t, hst⟩ := exists_of_isSub h
    exact absurd hst (safe_not_script (safe_sanitize cs) s t)

/-- C1: for every input markdown string, the output of `render_markdown`
is sanitized HTML in which the substring `<script` never occurs, even
when the input contains a literal script element. -/
theorem render_markdown_never_contains_script (md : String) :
    occurs "<script" (render_markdown md) = false := by
  have h : "<script".toList = '<' :: scrChars := by decide
  unfold occurs render_markdown
  rw [h]
  exact isSub_script_sanitize (markdownToChars md.toList)

/-- C6: rendering the test suite's heading/emphasis input produces an
`<h1>` tag, the literal text, and an `<em>` (or `<i>`) wrapping of the
emphasized word; rendering its pipe-table input produces a `<table>` tag
and `<td>` cells holding the table values. -/
theorem render_markdown_basic_and_table :
    (occurs "<h1>" (render_markdown "# Hello *world*") = true ∧
     occurs "Hello" (render_markdown "# Hello *world*") = true ∧
     (occurs "<em>world</em>" (render_markdown "# Hello *world*") = true ∨
      occurs "<i>world</i>" (render_markdown "# Hello *world*") = true)) ∧
    (occurs "<table>"
        (render_markdown "\n| A | B |\n|---|---|\n| 1 | 2 |\n") = true ∧
     occurs "<td>1</td>"
        (render_markdown "\n| A | B |\n|---|---|\n| 1 | 2 |\n") = true ∧
     occurs "<td>2</td>"
        (render_markdown "\n| A | B |\n|---|---|\n| 1 | 2 |\n") = true) := by
  decide

/-! ### The root page

Modelled from the spec: the server-rendered templates (absent from the
reviewed files; their tests are under `src/lms/jinja2/lms/tests/`)
produce a root page (`/`) whose HTML "contains a viewport meta with
exact content", Bootstrap grid markup and specific CSS file inclusions. -/

structure HttpResponse where
  status : Nat
  body : String

/-- Modelled from the spec: the HTML body the root page template renders. -/
def rootPageBody : String :=
  "<!DOCTYPE html><html><head><meta name=\"viewport\" content=\"width=device-width, initial-scale=1\"><link rel=\"stylesheet\" href=\"/static/v1/dist/css/center_style.css\"><link rel=\"stylesheet\" href=\"/static/v1/dist/css/responsive-overrides.css\"></head><body><div class=\"container\"><div class=\"row\"><div class=\"col-xs-12\"><button id=\"theme-toggle\"></button></div></div></div></body></html>"

/-- Modelled from the spec: HTTP routing of the visible slice; the root
path serves the rendered root page with status 200. -/
def httpGet (path : String) : Option HttpResponse :=
  if path = "/" then some ⟨200, rootPageBody⟩ else none

/-- C7: an HTTP GET of `/` returns status 200 and HTML containing a
viewport meta tag whose content attribute is exactly
`width=device-width, initial-scale=1`. -/
theorem root_page_viewport_meta :
    ∃ r, httpGet "/" = some r ∧ r.status = 200 ∧
      occurs "<meta name=\"viewport\" content=\"width=device-width, initial-scale=1\">"
        r.body = true := by
  refine ⟨⟨200, rootPageBody⟩, rfl, rfl, ?_⟩
  decide

/-! ### The `create_demo_assignment` management command

Embedding of
`src/apps/learning/management/commands/create_demo_assignment.py`.
The ORM rows the command touches become records; the database becomes an
explicit `DB` record; `handle` becomes a state-passing function that
returns the raised `CommandError` (if any), the resulting database and
the observable output events (stats recalculations, warnings, the final
success line). -/

structure Course where
  id : Nat
  metaCourseName : String
  mainBranchTimeZone : Option String
deriving DecidableEq

structure DateTimeUTC where
  year : Nat
  month : Nat
  day : Nat
  hour : Nat
  minute : Nat
deriving DecidableEq

/-- A value of Python's `Decimal`, as far as the command uses it. -/
structure DecimalV where
  mantissa : Int
  scale : Nat
deriving DecidableEq

structure Assignment where
  id : Nat
  courseId : Nat
  title : String
  text : String
  deadline_at : DateTimeUTC
  maximum_score : Int
  weight : DecimalV
  submission_type : String
  time_zone : String
  assignee_mode : String
deriving DecidableEq

structure User where
  id : Nat
  username : String
deriving DecidableEq

structure CourseTeacher where
  id : Nat
  courseId : Nat
  teacherId : Nat
  reviewer : Bool
  lecturer : Bool
deriving DecidableEq

structure StudentAssignment where
  id : Nat
  assignmentId : Nat
  studentId : Nat
  assigneeId : Option Nat
  status : String
deriving DecidableEq

structure AssignmentComment where
  id : Nat
  studentAssignmentId : Nat
  type : String
  text : String
  authorId : Nat
  is_published : Bool
deriving DecidableEq

structure DB where
  courses : List Course
  assignments : List Assignment
  studentAssignments : List StudentAssignment
  comments : List AssignmentComment
  users : List User
  courseTeachers : List CourseTeacher
  enrollments : List (Nat × Nat)
  nextAssignmentId : Nat
  nextSAId : Nat
  nextCommentId : Nat
  nextCTId : Nat
deriving DecidableEq

inductive CmdError
  | courseNotFound
  | badDeadline
  | badWeight
deriving DecidableEq

inductive Event
  | statsRecalc (saId : Nat)
  | warning (msg : String)
  | success (msg : String)
deriving DecidableEq

/-- The parsed command-line options.  argparse guarantees exactly one of
`--course-id`/`--course-name` (the mutually exclusive required group),
that `--submission-type` is one of the two choices, and that
`--max-score` is an int (default 10) and `--title`/`--deadline` are
present. -/
inductive CourseSelector
  | byId (id : Nat)
  | byName (nm : String)
deriving DecidableEq

structure Opts where
  courseSel : CourseSelector
  title : String
  deadline : String
  submission_type : String
  max_score : Int
  weight : String
  seed_review : Bool
  student_username : Option String
  teacher_username : Option String
deriving DecidableEq

/-- Python's `str.strip()`. -/
def stripStr (s : String) : String := String.mk (trimChars s.toList)

def digitsToNat (l : List Char) : Nat :=
  l.foldl (fun a c => a * 10 + (c.toNat - '0'.toNat)) 0

def isLeap (y : Nat) : Bool := (y % 4 == 0 && y % 100 != 0) || y % 400 == 0

def daysInMonth (y m : Nat) : Nat :=
  if m = 2 then (if isLeap y then 29 else 28)
  else if m = 4 ∨ m = 6 ∨ m = 9 ∨ m = 11 then 30
  else 31

/-- `datetime.strptime(s, "%Y-%m-%d %H:%M")`: the zero-padded core of the
accepted grammar, with the datetime constructor's range validation. -/
def parseDeadline (s : String) : Option DateTimeUTC :=
  match s.toList with
  | [y1, y2, y3, y4, '-', m1, m2, '-', d1, d2, ' ', h1, h2, ':', n1, n2] =>
    if ([y1, y2, y3, y4, m1, m2, d1, d2, h1, h2, n1, n2].all Char.isDigit) then
      let y := digitsToNat [y1, y2, y3, y4]
      let mo := digitsToNat [m1, m2]
      let d := digitsToNat [d1, d2]
      let h := digitsToNat [h1, h2]
      let mi := digitsToNat [n1, n2]
      if 1 ≤ y && 1 ≤ mo && mo ≤ 12 && 1 ≤ d && d ≤ daysInMonth y mo &&
          h < 24 && mi < 60 then
        some ⟨y, mo, d, h, mi⟩
      else none
    else none
  | _ => none

/-- `Decimal(s)`: the sign/digits/fraction core of the accepted grammar
(exponents and special values are not exercised by the command). -/
def parseDecimal (s : String) : Option DecimalV :=
  let step : Bool × List Char :=
    match s.toList with
    | '-' :: r => (true, r)
    | '+' :: r => (false, r)
    | r => (false, r)
  let intPart := step.2.takeWhile Char.isDigit
  let rest := step.2.dropWhile Char.isDigit
  let sgn : Int := if step.1 then -1 else 1
  match rest with
  | [] =>
    if intPart.isEmpty then none
    else some ⟨sgn * digitsToNat intPart, 0⟩
  | '.' :: frac =>
    if frac.all Char.isDigit && (!intPart.isEmpty || !frac.isEmpty) then
      some ⟨sgn * digitsToNat (intPart ++ frac), frac.length⟩
    else none
  | _ => none

/-- The better of a candidate course and an optional current best, by
primary key. -/
def betterCourse (c : Course) : Option Course → Course
  | none => c
  | some b => if b.id < c.id then c else b

/-- `Course.objects.filter(...).order_by("-id").first()`: the matching
row with the greatest primary key. -/
def maxById : List Course → Option Course
  | [] => none
  | c :: rest => some (betterCourse c (maxById rest))

def lookupCourse (db : DB) : CourseSelector → Option Course
  | .byId i => db.courses.find? (fun c => c.id == i)
  | .byName nm => maxById (db.courses.filter (fun c => c.metaCourseName == nm))

def findAssignment (db : DB) (cid : Nat) (t : String) : Option Assignment :=
  db.assignments.find? (fun a => a.courseId == cid && a.title == t)

def updatedAssignment (a : Assignment) (dl : DateTimeUTC) (ms : Int)
    (w : DecimalV) (st tz : String) : Assignment :=
  { a with deadline_at := dl, maximum_score := ms, weight := w,
           submission_type := st, time_zone := tz, assignee_mode := "manual" }

/-- `Assignment.objects.get_or_create(course=…, title=…, defaults=…)`
followed by the update-and-save of the key fields when the row existed. -/
def upsertAssignment (db : DB) (c : Course) (t : String) (dl : DateTimeUTC)
    (ms : Int) (w : DecimalV) (st tz : String) : DB × Assignment × Bool :=
  match findAssignment db c.id t with
  | some a =>
    let a2 := updatedAssignment a dl ms w st tz
    ({ db with assignments :=
        db.assignments.map (fun x => if x.id == a.id then a2 else x) },
      a2, false)
  | none =>
    let a : Assignment :=
      { id := db.nextAssignmentId, courseId := c.id, title := t,
        text := "Seeded assignment", deadline_at := dl, maximum_score := ms,
        weight := w, submission_type := st, time_zone := tz,
        assignee_mode := "manual" }
    ({ db with
        assignments := db.assignments ++ [a],
        nextAssignmentId := db.nextAssignmentId + 1 },
      a, true)

/-- Modelled from the spec:
`AssignmentService.bulk_create_student_assignments(assignment)`
(`learning/services/assignment_service.py`, absent from the reviewed
files) "bulk-creates per-student StudentAssignment rows" for the
enrolled students of the course, skipping students that already have
one. -/
def addSA (aId : Nat) (db : DB) (sid : Nat) : DB :=
  if db.studentAssignments.any
      (fun sa => sa.assignmentId == aId && sa.studentId == sid) then db
  else
    { db with
        studentAssignments :=
          db.studentAssignments ++ [⟨db.nextSAId, aId, sid, none, "new"⟩],
        nextSAId := db.nextSAId + 1 }

def bulkCreateStudentAssignments (db : DB) (a : Assignment) : DB :=
  (((db.enrollments.filter (fun e => e.1 == a.courseId)).map (·.2)).foldl
    (addSA a.id) db)

/-- The synchronous stats loop: one `update_student_assignment_stats`
call per StudentAssignment of the assignment. -/
def statsEvents (db : DB) (a : Assignment) : List Event :=
  (db.studentAssignments.filter (fun sa => sa.assignmentId == a.id)).map
    (fun sa => Event.statsRecalc sa.id)

def findUser (db : DB) (un : String) : Option User :=
  db.users.find? (fun u => u.username == un)

def setRoles (ct : CourseTeacher) : CourseTeacher :=
  { ct with reviewer := true, lecturer := true }

/-- `CourseTeacher.objects.get_or_create(course=…, teacher=…)` followed by
setting the reviewer/lecturer role flags and saving. -/
def getOrCreateCT (db : DB) (cid tid : Nat) : DB × CourseTeacher :=
  match db.courseTeachers.find?
      (fun ct => ct.courseId == cid && ct.teacherId == tid) with
  | some ct =>
    let ct2 := setRoles ct
    ({ db with courseTeachers :=
        db.courseTeachers.map (fun x => if x.id == ct.id then ct2 else x) },
      ct2)
  | none =>
    let ct2 : CourseTeacher := ⟨db.nextCTId, cid, tid, true, true⟩
    ({ db with
        courseTeachers := db.courseTeachers ++ [ct2],
        nextCTId := db.nextCTId + 1 },
      ct2)

/-- Saving the found StudentAssignment with the reviewer attached and
status ON_CHECKING (`sa.save(update_fields=["assignee", "status"])`). -/
def assignReviewer (db : DB) (saId ctId : Nat) : DB :=
  { db with
      studentAssignments := db.studentAssignments.map
        (fun x => if x.id == saId then
          { x with assigneeId := some ctId, status := "on_checking" } else x) }

/-- Creating a published SOLUTION comment unless one already exists. -/
def ensureSolution (db : DB) (saId authorId : Nat) : DB :=
  match db.comments.find?
      (fun cm => cm.studentAssignmentId == saId && cm.type == "solution") with
  | some _ => db
  | none =>
    { db with
        comments := db.comments ++
          [⟨db.nextCommentId, saId, "solution",
            "Seeded solution for review", authorId, true⟩],
        nextCommentId := db.nextCommentId + 1 }

/-- `Command._seed_review_item`. -/
def seedReviewItem (db : DB) (c : Course) (a : Assignment) (su tu : String) :
    DB × List Event :=
  match findUser db su, findUser db tu with
  | some student, some teacher =>
    match (getOrCreateCT db c.id teacher.id).1.studentAssignments.find?
        (fun sa => sa.assignmentId == a.id && sa.studentId == student.id) with
    | none =>
      ((getOrCreateCT db c.id teacher.id).1,
        [Event.warning "StudentAssignment not found; skipping review seed."])
    | some sa =>
      (ensureSolution
          (assignReviewer (getOrCreateCT db c.id teacher.id).1 sa.id
            (getOrCreateCT db c.id teacher.id).2.id)
          sa.id student.id,
        [Event.statsRecalc sa.id, Event.success "OK review seeded"])
  | _, _ =>
    (db, [Event.warning "Student or teacher not found; skipping review seed."])

/-- `int(options["max_score"]) if options["max_score"] else 10`: a falsy
(zero) max score becomes 10. -/
def effMaxScore (opts : Opts) : Int :=
  if opts.max_score == 0 then 10 else opts.max_score

/-- `getattr(getattr(course, 'main_branch', None), 'time_zone', 'UTC')`. -/
def courseTZ (c : Course) : String := c.mainBranchTimeZone.getD "UTC"

/-- The assignment upsert with the option-derived arguments filled in. -/
def upsertOf (opts : Opts) (db : DB) (c : Course) (dl : DateTimeUTC)
    (w : DecimalV) : DB × Assignment × Bool :=
  upsertAssignment db c (stripStr opts.title) dl (effMaxScore opts) w
    opts.submission_type (courseTZ c)

/-- The assignment creation/update plus the bulk creation of
StudentAssignment rows: the part of `handle` between the validations and
the stats loop.  Returns the new state and the created/updated row. -/
def runMain (opts : Opts) (db : DB) (c : Course) (dl : DateTimeUTC)
    (w : DecimalV) : DB × Assignment :=
  (bulkCreateStudentAssignments (upsertOf opts db c dl w).1
      (upsertOf opts db c dl w).2.1,
    (upsertOf opts db c dl w).2.1)

/-- The optional review seeding step of `handle`. -/
def runSeed (opts : Opts) (db : DB) (c : Course) (a : Assignment) :
    DB × List Event :=
  if opts.seed_review then
    if opts.student_username.getD "" == "" ||
        opts.teacher_username.getD "" == "" then
      (db, [Event.warning
        "--seed-review requires both --student-username and --teacher-username. Skipping seeding."])
    else
      seedReviewItem db c a (opts.student_username.getD "")
        (opts.teacher_username.getD "")
  else (db, [])

/-- `Command.handle`: validations in source order (course lookup, deadline
parse, weight parse), then the assignment upsert, the bulk creation of
StudentAssignment rows, the synchronous stats loop, the optional review
seeding, and the final success line. -/
def handle (opts : Opts) (db : DB) :
    Except CmdError Unit × DB × List Event :=
  match lookupCourse db opts.courseSel with
  | none => (.error .courseNotFound, db, [])
  | some c =>
    match parseDeadline opts.deadline with
    | none => (.error .badDeadline, db, [])
    | some dl =>
      match parseDecimal opts.weight with
      | none => (.error .badWeight, db, [])
      | some w =>
        let m := runMain opts db c dl w
        let ev1 := statsEvents m.1 m.2
        let s := runSeed opts m.1 c m.2
        (.ok (), s.1, ev1 ++ s.2 ++ [Event.success "OK"])

/-- The database after a run of the command. -/
def handleDB (opts : Opts) (db : DB) : DB := (handle opts db).2.1

/-- The events a run of the command writes. -/
def handleEvents (opts : Opts) (db : DB) : List Event := (handle opts db).2.2

/-! ### Frame lemmas: which parts of the state each step leaves alone -/

theorem foldl_addSA_pres {aId : Nat} {β : Type} (f : DB → β)
    (hf : ∀ db sid, f (addSA aId db sid) = f db) :
    ∀ (l : List Nat) (db : DB), f (l.foldl (addSA aId) db) = f db
  | [], _ => rfl
  | s :: rest, db => by
    rw [List.foldl_cons, foldl_addSA_pres f hf rest _, hf]

theorem bulk_pres {β : Type} (f : DB → β)
    (hf : ∀ aId db sid, f (addSA aId db sid) = f db) (db : DB) (a : Assignment) :
    f (bulkCreateStudentAssignments db a) = f db :=
  foldl_addSA_pres f (hf a.id) _ db

theorem bulk_assignments (db : DB) (a : Assignment) :
    (bulkCreateStudentAssignments db a).assignments = db.assignments :=
  bulk_pres DB.assignments (by intro aId db sid; unfold addSA; split <;> rfl) db a

theorem bulk_comments (db : DB) (a : Assignment) :
    (bulkCreateStudentAssignments db a).comments = db.comments :=
  bulk_pres DB.comments (by intro aId db sid; unfold addSA; split <;> rfl) db a

theorem bulk_courses (db : DB) (a : Assignment) :
    (bulkCreateStudentAssignments db a).courses = db.courses :=
  bulk_pres DB.courses (by intro aId db sid; unfold addSA; split <;> rfl) db a

theorem bulk_users (db : DB) (a : Assignment) :
    (bulkCreateStudentAssignments db a).users = db.users :=
  bulk_pres DB.users (by intro aId db sid; unfold addSA; split <;> rfl) db a

theorem bulk_enrollments (db : DB) (a : Assignment) :
    (bulkCreateStudentAssignments db a).enrollments = db.enrollments :=
  bulk_pres DB.enrollments (by intro aId db sid; unfold addSA; split <;> rfl) db a

theorem bulk_courseTeachers (db : DB) (a : Assignment) :
    (bulkCreateStudentAssignments db a).courseTeachers = db.courseTeachers :=
  bulk_pres DB.courseTeachers (by intro aId db sid; unfold addSA; split <;> rfl) db a

theorem bulk_nextAssignmentId (db : DB) (a : Assignment) :
    (bulkCreateStudentAssignments db a).nextAssignmentId = db.nextAssignmentId :=
  bulk_pres DB.nextAssignmentId (by intro aId db sid; unfold addSA; split <;> rfl) db a

theorem bulk_nextCommentId (db : DB) (a : Assignment) :
    (bulkCreateStudentAssignments db a).nextCommentId = db.nextCommentId :=
  bulk_pres DB.nextCommentId (by intro aId db sid; unfold addSA; split <;> rfl) db a

theorem upsert_pres_core (db : DB) (c : Course) (t : String) (dl : DateTimeUTC)
    (ms : Int) (w : DecimalV) (st tz : String) :
    (upsertAssignment db c t dl ms w st tz).1.studentAssignments =
        db.studentAssignments ∧
    (upsertAssignment db c t dl ms w st tz).1.comments = db.comments ∧
    (upsertAssignment db c t dl ms w st tz).1.courses = db.courses ∧
    (upsertAssignment db c t dl ms w st tz).1.users = db.users ∧
    (upsertAssignment db c t dl ms w st tz).1.enrollments = db.enrollments ∧
    (upsertAssignment db c t dl ms w st tz).1.courseTeachers = db.courseTeachers ∧
    (upsertAssignment db c t dl ms w st tz).1.nextSAId = db.nextSAId ∧
    (upsertAssignment db c t dl ms w st tz).1.nextCommentId = db.nextCommentId := by
  unfold upsertAssignment
  split <;> simp

theorem getOrCreateCT_pres (db : DB) (cid tid : Nat) :
    (getOrCreateCT db cid tid).1.assignments = db.assignments ∧
    (getOrCreateCT db cid tid).1.comments = db.comments ∧
    (getOrCreateCT db cid tid).1.courses = db.courses ∧
    (getOrCreateCT db cid tid).1.users = db.users ∧
    (getOrCreateCT db cid tid).1.enrollments = db.enrollments ∧
    (getOrCreateCT db cid tid).1.studentAssignments = db.studentAssignments ∧
    (getOrCreateCT db cid tid).1.nextAssignmentId = db.nextAssignmentId ∧
    (getOrCreateCT db cid tid).1.nextCommentId = db.nextCommentId := by
  unfold getOrCreateCT
  split <;> simp

theorem assignReviewer_pres (db : DB) (saId ctId : Nat) :
    (assignReviewer db saId ctId).assignments = db.assignments ∧
    (assignReviewer db saId ctId).comments = db.comments ∧
    (assignReviewer db saId ctId).courses = db.courses ∧
    (assignReviewer db saId ctId).users = db.users ∧
    (assignReviewer db saId ctId).enrollments = db.enrollments ∧
    (assignReviewer db saId ctId).nextAssignmentId = db.nextAssignmentId ∧
    (assignReviewer db saId ctId).nextCommentId = db.nextCommentId := by
  unfold assignReviewer
  simp

theorem ensureSolution_pres (db : DB) (saId authorId : Nat) :
    (ensureSolution db saId authorId).assignments = db.assignments ∧
    (ensureSolution db saId authorId).courses = db.courses ∧
    (ensureSolution db saId authorId).users = db.users ∧
    (ensureSolution db saId authorId).enrollments = db.enrollments ∧
    (ensureSolution db saId authorId).studentAssignments =
        db.studentAssignments ∧
    (ensureSolution db saId authorId).nextAssignmentId =
        db.nextAssignmentId := by
  unfold ensureSolution
  split <;> simp

theorem seed_pres (db : DB) (c : Course) (a : Assignment) (su tu : String) :
    (seedReviewItem db c a su tu).1.assignments = db.assignments ∧
    (seedReviewItem db c a su tu).1.courses = db.courses ∧
    (seedReviewItem db c a su tu).1.users = db.users ∧
    (seedReviewItem db c a su tu).1.enrollments = db.enrollments ∧
    (seedReviewItem db c a su tu).1.nextAssignmentId = db.nextAssignmentId := by
  unfold seedReviewItem
  split
  · split
    · exact ⟨(getOrCreateCT_pres db c.id _).1,
        (getOrCreateCT_pres db c.id _).2.2.1,
        (getOrCreateCT_pres db c.id _).2.2.2.1,
        (getOrCreateCT_pres db c.id _).2.2.2.2.1,
        (getOrCreateCT_pres db c.id _).2.2.2.2.2.2.1⟩
    · refine ⟨?_, ?_, ?_, ?_, ?_⟩ <;>
        simp [(ensureSolution_pres _ _ _).1, (ensureSolution_pres _ _ _).2.1,
          (ensureSolution_pres _ _ _).2.2.1, (ensureSolution_pres _ _ _).2.2.2.1,
          (ensureSolution_pres _ _ _).2.2.2.2.2,
          (assignReviewer_pres _ _ _).1, (assignReviewer_pres _ _ _).2.2.1,
          (assignReviewer_pres _ _ _).2.2.2.1,
          (assignReviewer_pres _ _ _).2.2.2.2.1,
          (assignReviewer_pres _ _ _).2.2.2.2.2.1,
          (getOrCreateCT_pres db c.id _).1,
          (getOrCreateCT_pres db c.id _).2.2.1,
          (getOrCreateCT_pres db c.id _).2.2.2.1,
          (getOrCreateCT_pres db c.id _).2.2.2.2.1,
          (getOrCreateCT_pres db c.id _).2.2.2.2.2.2.1]
  · exact ⟨rfl, rfl, rfl, rfl, rfl⟩

theorem runSeed_pres (opts : Opts) (db : DB) (c : Course) (a : Assignment) :
    (runSeed opts db c a).1.assignments = db.assignments ∧
    (runSeed opts db c a).1.courses = db.courses ∧
    (runSeed opts db c a).1.users = db.users ∧
    (runSeed opts db c a).1.enrollments = db.enrollments ∧
    (runSeed opts db c a).1.nextAssignmentId = db.nextAssignmentId := by
  unfold runSeed
  split
  · split
    · exact ⟨rfl, rfl, rfl, rfl, rfl⟩
    · exact seed_pres db c a _ _
  · exact ⟨rfl, rfl, rfl, rfl, rfl⟩

/-! ### How a successful run decomposes -/

theorem handle_ok_parts (opts : Opts) (db : DB) (c : Course)
    (dl : DateTimeUTC) (w : DecimalV)
    (hc : lookupCourse db opts.courseSel = some c)
    (hd : parseDeadline opts.deadline = some dl)
    (hw : parseDecimal opts.weight = some w) :
    handle opts db =
      (Except.ok (),
        (runSeed opts (runMain opts db c dl w).1 c (runMain opts db c dl w).2).1,
        statsEvents (runMain opts db c dl w).1 (runMain opts db c dl w).2 ++
          (runSeed opts (runMain opts db c dl w).1 c
            (runMain opts db c dl w).2).2 ++
          [Event.success "OK"]) := by
  unfold handle
  rw [hc, hd, hw]

theorem handleDB_assignments (opts : Opts) (db : DB) (c : Course)
    (dl : DateTimeUTC) (w : DecimalV)
    (hc : lookupCourse db opts.courseSel = some c)
    (hd : parseDeadline opts.deadline = some dl)
    (hw : parseDecimal opts.weight = some w) :
    (handleDB opts db).assignments = (upsertOf opts db c dl w).1.assignments := by
  unfold handleDB
  rw [handle_ok_parts opts db c dl w hc hd hw]
  show (runSeed opts (runMain opts db c dl w).1 c
      (runMain opts db c dl w).2).1.assignments = _
  rw [(runSeed_pres opts _ c _).1]
  show (bulkCreateStudentAssignments _ _).assignments = _
  rw [bulk_assignments]

/-! ### C2: command errors -/

/-- C2: `create_demo_assignment` raises a CommandError exactly when the
selected course does not exist, the deadline string does not parse, or
the weight string is not a valid decimal; in each case the error is
raised before any Assignment row is created or modified (the database is
returned unchanged). -/
theorem command_error_exactly_on_bad_input (opts : Opts) (db : DB) :
    ((∃ e, (handle opts db).1 = Except.error e) ↔
      (lookupCourse db opts.courseSel = none ∨
       parseDeadline opts.deadline = none ∨
       parseDecimal opts.weight = none)) ∧
    (∀ e, (handle opts db).1 = Except.error e → handleDB opts db = db) := by
  unfold handleDB handle
  cases hc : lookupCourse db opts.courseSel with
  | none => simp
  | some c =>
    cases hd : parseDeadline opts.deadline with
    | none => simp
    | some dl =>
      cases hw : parseDecimal opts.weight with
      | none => simp
      | some w => simp

/-! ### C10: course selection by name takes the greatest primary key -/

theorem betterCourse_cases (c : Course) (o : Option Course) :
    betterCourse c o = c ∨ ∃ b, o = some b ∧ betterCourse c o = b := by
  cases o with
  | none => exact Or.inl rfl
  | some b =>
    by_cases hb : b.id < c.id
    · exact Or.inl (by simp [betterCourse, hb])
    · exact Or.inr ⟨b, rfl, by simp [betterCourse, hb]⟩

theorem betterCourse_ge_head (c : Course) (o : Option Course) :
    c.id ≤ (betterCourse c o).id := by
  cases o with
  | none => exact le_refl _
  | some b =>
    by_cases hb : b.id < c.id
    · simp [betterCourse, hb]
    · simp only [betterCourse, if_neg hb]
      exact Nat.le_of_not_lt hb

theorem betterCourse_ge_opt (c b : Course) :
    b.id ≤ (betterCourse c (some b)).id := by
  by_cases hb : b.id < c.id
  · simp only [betterCourse, if_pos hb]
    exact le_of_lt hb
  · simp [betterCourse, hb]

theorem maxById_mem {l : List Course} {c : Course} (h : maxById l = some c) :
    c ∈ l := by
  induction l generalizing c with
  | nil => simp [maxById] at h
  | cons a rest ih =>
    rw [maxById] at h
    injection h with h
    rcases betterCourse_cases a (maxById rest) with hc | ⟨b, hb, hc⟩
    · rw [hc] at h
      simp [← h]
    · rw [hc] at h
      exact List.mem_cons_of_mem a (h ▸ ih hb)

theorem maxById_ge {l : List Course} {c : Course} (h : maxById l = some c) :
    ∀ b ∈ l, b.id ≤ c.id := by
  induction l generalizing c with
  | nil => simp
  | cons a rest ih =>
    rw [maxById] at h
    injection h with h
    intro b hmem
    rcases List.mem_cons.mp hmem with rfl | hmem
    · exact h ▸ betterCourse_ge_head b (maxById rest)
    · cases hr : maxById rest with
      | none =>
        cases rest with
        | nil => simp at hmem
        | cons x xs => simp [maxById] at hr
      | some b0 =>
        calc b.id ≤ b0.id := ih hr b hmem
          _ ≤ (betterCourse a (some b0)).id := betterCourse_ge_opt a b0
          _ = c.id := by rw [← hr, h]

/-- C10: when several courses share the requested meta-course name, the
command operates on the one with the greatest primary key. -/
theorem course_by_name_takes_greatest_id (db : DB) (nm : String) (c : Course)
    (h : lookupCourse db (CourseSelector.byName nm) = some c) :
    c ∈ db.courses ∧ c.metaCourseName = nm ∧
      ∀ b ∈ db.courses, b.metaCourseName = nm → b.id ≤ c.id := by
  unfold lookupCourse at h
  have hmem := maxById_mem h
  refine ⟨List.mem_of_mem_filter hmem, ?_, ?_⟩
  · have := (List.mem_filter.mp hmem).2
    simpa using this
  · intro b hb hbn
    exact maxById_ge h b (List.mem_filter.mpr ⟨hb, by simp [hbn]⟩)

/-! ### C8: falsy max score -/

theorem upsert_row_mem (db : DB) (c : Course) (t : String) (dl : DateTimeUTC)
    (ms : Int) (w : DecimalV) (st tz : String) :
    (upsertAssignment db c t dl ms w st tz).2.1 ∈
      (upsertAssignment db c t dl ms w st tz).1.assignments := by
  unfold upsertAssignment
  split
  · rename_i a ha
    unfold findAssignment at ha
    simp only
    exact List.mem_map.mpr ⟨a, List.mem_of_find?_eq_some ha, by simp⟩
  · simp

/-- C8: the command replaces a falsy `--max-score` with 10: with
`--max-score 0` the created/updated assignment row carries
maximum_score 10, not 0, and that row is in the resulting database. -/
theorem falsy_max_score_becomes_ten (opts : Opts) (db : DB) (c : Course)
    (dl : DateTimeUTC) (w : DecimalV)
    (hc : lookupCourse db opts.courseSel = some c)
    (hd : parseDeadline opts.deadline = some dl)
    (hw : parseDecimal opts.weight = some w)
    (h0 : opts.max_score = 0) :
    (upsertOf opts db c dl w).2.1.maximum_score = 10 ∧
    (upsertOf opts db c dl w).2.1 ∈ (handleDB opts db).assignments := by
  constructor
  · have hms : effMaxScore opts = 10 := by simp [effMaxScore, h0]
    unfold upsertOf upsertAssignment
    split <;> simp [updatedAssignment, hms]
  · rw [handleDB_assignments opts db c dl w hc hd hw]
    exact upsert_row_mem db c _ dl _ w _ _

/-! ### C4: upsert keyed by (course, title) -/

/-- C4: the command creates or updates the Assignment row keyed by
(course, stripped title): if absent, exactly one new row is appended
with the given deadline, maximum score, weight and submission type; if
present, no row is added and deadline_at, maximum_score, weight,
submission_type, time_zone and assignee_mode are updated. -/
theorem assignment_upsert_semantics (opts : Opts) (db : DB) (c : Course)
    (dl : DateTimeUTC) (w : DecimalV)
    (hc : lookupCourse db opts.courseSel = some c)
    (hd : parseDeadline opts.deadline = some dl)
    (hw : parseDecimal opts.weight = some w) :
    (handleDB opts db).assignments =
      match findAssignment db c.id (stripStr opts.title) with
      | none => db.assignments ++
          [⟨db.nextAssignmentId, c.id, stripStr opts.title,
            "Seeded assignment", dl, effMaxScore opts, w,
            opts.submission_type, courseTZ c, "manual"⟩]
      | some a => db.assignments.map (fun x =>
          if x.id == a.id then
            updatedAssignment a dl (effMaxScore opts) w
              opts.submission_type (courseTZ c)
          else x) := by
  rw [handleDB_assignments opts db c dl w hc hd hw]
  unfold upsertOf upsertAssignment
  cases hfa : findAssignment db c.id (stripStr opts.title) <;> simp [hfa]

/-! ### Concrete data used by the witnesses -/

def wCourse : Course := ⟨1, "Algebra", none⟩

def wDB : DB := ⟨[wCourse], [], [], [], [], [], [(1, 7)], 1, 1, 1, 1⟩

def wOpts : Opts :=
  ⟨CourseSelector.byId 1, " HW1 ", "2030-01-02 03:04", "online", 0, "1.00",
    false, none, none⟩

def wDL : DateTimeUTC := ⟨2030, 1, 2, 3, 4⟩

def wW : DecimalV := ⟨100, 2⟩

theorem assignment_upsert_semantics_witness :
    (handleDB wOpts wDB).assignments =
      match findAssignment wDB wCourse.id (stripStr wOpts.title) with
      | none => wDB.assignments ++
          [⟨wDB.nextAssignmentId, wCourse.id, stripStr wOpts.title,
            "Seeded assignment", wDL, effMaxScore wOpts, wW,
            wOpts.submission_type, courseTZ wCourse, "manual"⟩]
      | some a => wDB.assignments.map (fun x =>
          if x.id == a.id then
            updatedAssignment a wDL (effMaxScore wOpts) wW
              wOpts.submission_type (courseTZ wCourse)
          else x) :=
  assignment_upsert_semantics wOpts wDB wCourse wDL wW rfl rfl rfl

theorem falsy_max_score_becomes_ten_witness :
    (upsertOf wOpts wDB wCourse wDL wW).2.1.maximum_score = 10 ∧
    (upsertOf wOpts wDB wCourse wDL wW).2.1 ∈ (handleDB wOpts wDB).assignments :=
  falsy_max_score_becomes_ten wOpts wDB wCourse wDL wW rfl rfl rfl rfl

def wDB10 : DB :=
  ⟨[⟨1, "X", none⟩, ⟨2, "X", none⟩], [], [], [], [], [], [], 1, 1, 1, 1⟩

theorem course_by_name_takes_greatest_id_witness :
    (⟨2, "X", none⟩ : Course) ∈ wDB10.courses ∧
    (⟨2, "X", none⟩ : Course).metaCourseName = "X" ∧
    (⟨1, "X", none⟩ : Course).id ≤ (⟨2, "X", none⟩ : Course).id := by
  have h := course_by_name_takes_greatest_id wDB10 "X" ⟨2, "X", none⟩ rfl
  exact ⟨h.1, h.2.1, h.2.2 ⟨1, "X", none⟩ (by decide) rfl⟩

/-! ### C5: the synchronous stats loop -/

/-- C5: after bulk-creating the StudentAssignment rows, the command
synchronously calls the stats-recalculation routine once for every
StudentAssignment of the assignment — the output events open with
exactly one statsRecalc per such row — before the final success line. -/
theorem stats_recalc_per_student_assignment (opts : Opts) (db : DB)
    (c : Course) (dl : DateTimeUTC) (w : DecimalV)
    (hc : lookupCourse db opts.courseSel = some c)
    (hd : parseDeadline opts.deadline = some dl)
    (hw : parseDecimal opts.weight = some w) :
    ∃ tail,
      handleEvents opts db =
        ((runMain opts db c dl w).1.studentAssignments.filter
            (fun sa => sa.assignmentId == (runMain opts db c dl w).2.id)).map
          (fun sa => Event.statsRecalc sa.id) ++ tail ∧
      (handleEvents opts db).getLast? = some (Event.success "OK") := by
  unfold handleEvents
  rw [handle_ok_parts opts db c dl w hc hd hw]
  refine ⟨(runSeed opts (runMain opts db c dl w).1 c
      (runMain opts db c dl w).2).2 ++ [Event.success "OK"], ?_, ?_⟩
  · show statsEvents _ _ ++ _ ++ _ = _
    unfold statsEvents
    rw [List.append_assoc]
  · show (_ ++ _ ++ [Event.success "OK"]).getLast? = _
    simp

/-! ### C3: graceful degradation of review seeding -/

theorem findUser_eq_users {db1 db2 : DB} (h : db1.users = db2.users)
    (un : String) : findUser db1 un = findUser db2 un := by
  unfold findUser
  rw [h]

theorem upsertOf_users (opts : Opts) (db : DB) (c : Course) (dl : DateTimeUTC)
    (w : DecimalV) : (upsertOf opts db c dl w).1.users = db.users :=
  (upsert_pres_core db c (stripStr opts.title) dl (effMaxScore opts) w
    opts.submission_type (courseTZ c)).2.2.2.1

theorem upsertOf_comments (opts : Opts) (db : DB) (c : Course)
    (dl : DateTimeUTC) (w : DecimalV) :
    (upsertOf opts db c dl w).1.comments = db.comments :=
  (upsert_pres_core db c (stripStr opts.title) dl (effMaxScore opts) w
    opts.submission_type (courseTZ c)).2.1

theorem runMain_users (opts : Opts) (db : DB) (c : Course) (dl : DateTimeUTC)
    (w : DecimalV) : (runMain opts db c dl w).1.users = db.users := by
  show (bulkCreateStudentAssignments _ _).users = _
  rw [bulk_users]
  exact upsertOf_users opts db c dl w

theorem runMain_comments (opts : Opts) (db : DB) (c : Course)
    (dl : DateTimeUTC) (w : DecimalV) :
    (runMain opts db c dl w).1.comments = db.comments := by
  show (bulkCreateStudentAssignments _ _).comments = _
  rw [bulk_comments]
  exact upsertOf_comments opts db c dl w

/-- When a review-seeding prerequisite is absent, `_seed_review_item`
leaves the comments table alone and reports a single warning. -/
theorem seedReviewItem_miss (db : DB) (c : Course) (a : Assignment)
    (su tu : String)
    (hmiss : findUser db su = none ∨ findUser db tu = none ∨
      (∀ student, findUser db su = some student →
        db.studentAssignments.find?
          (fun sa => sa.assignmentId == a.id && sa.studentId == student.id) =
          none)) :
    (seedReviewItem db c a su tu).1.comments = db.comments ∧
    ∃ m, (seedReviewItem db c a su tu).2 = [Event.warning m] := by
  unfold seedReviewItem
  cases hstu : findUser db su with
  | none => exact ⟨rfl, _, rfl⟩
  | some student =>
    cases htea : findUser db tu with
    | none => exact ⟨rfl, _, rfl⟩
    | some teacher =>
      dsimp only
      rcases hmiss with h | h | h
      · rw [hstu] at h; cases h
      · rw [htea] at h; cases h
      · have hfind := h student hstu
        have hsas : (getOrCreateCT db c.id teacher.id).1.studentAssignments =
            db.studentAssignments :=
          (getOrCreateCT_pres db c.id teacher.id).2.2.2.2.2.1
        rw [hsas, hfind]
        exact ⟨(getOrCreateCT_pres db c.id teacher.id).2.1, _, rfl⟩

/-- C3: with `--seed-review`, when a prerequisite entity is absent (a
username option missing or empty, the student or teacher user not
found, or the StudentAssignment row not found), the command prints a
warning, skips the seeding step (no solution comment is created), and
still completes successfully with the assignment created/updated. -/
theorem seed_review_degrades_gracefully (opts : Opts) (db : DB) (c : Course)
    (dl : DateTimeUTC) (w : DecimalV)
    (hc : lookupCourse db opts.courseSel = some c)
    (hd : parseDeadline opts.deadline = some dl)
    (hw : parseDecimal opts.weight = some w)
    (hsr : opts.seed_review = true)
    (hmiss :
      opts.student_username.getD "" = "" ∨
      opts.teacher_username.getD "" = "" ∨
      findUser db (opts.student_username.getD "") = none ∨
      findUser db (opts.teacher_username.getD "") = none ∨
      (∀ student,
        findUser db (opts.student_username.getD "") = some student →
        (runMain opts db c dl w).1.studentAssignments.find?
          (fun sa => sa.assignmentId == (runMain opts db c dl w).2.id &&
            sa.studentId == student.id) = none)) :
    (handle opts db).1 = Except.ok () ∧
    (∃ m, Event.warning m ∈ handleEvents opts db) ∧
    (handleEvents opts db).getLast? = some (Event.success "OK") ∧
    (handleDB opts db).assignments = (upsertOf opts db c dl w).1.assignments ∧
    (handleDB opts db).comments = db.comments := by
  have hok := handle_ok_parts opts db c dl w hc hd hw
  have husers : (runMain opts db c dl w).1.users = db.users :=
    runMain_users opts db c dl w
  have hseed :
      (runSeed opts (runMain opts db c dl w).1 c
          (runMain opts db c dl w).2).1.comments =
        (runMain opts db c dl w).1.comments ∧
      ∃ m, (runSeed opts (runMain opts db c dl w).1 c
          (runMain opts db c dl w).2).2 = [Event.warning m] := by
    unfold runSeed
    rw [hsr]
    simp only [if_pos rfl]
    by_cases hemp : (opts.student_username.getD "" == "" ||
        opts.teacher_username.getD "" == "") = true
    · rw [if_pos hemp]
      exact ⟨rfl, _, rfl⟩
    · rw [if_neg hemp]
      apply seedReviewItem_miss
      simp only [Bool.or_eq_true, beq_iff_eq] at hemp
      push_neg at hemp
      rcases hmiss with h | h | h | h | h
      · exact absurd h hemp.1
      · exact absurd h hemp.2
      · exact Or.inl (by rw [findUser_eq_users husers]; exact h)
      · exact Or.inr (Or.inl (by rw [findUser_eq_users husers]; exact h))
      · refine Or.inr (Or.inr ?_)
        intro student hstu
        exact h student (by rw [← findUser_eq_users husers]; exact hstu)
  refine ⟨?_, ?_, ?_, ?_, ?_⟩
  · rw [hok]
  · obtain ⟨m, hm⟩ := hseed.2
    refine ⟨m, ?_⟩
    unfold handleEvents
    rw [hok]
    show Event.warning m ∈ statsEvents _ _ ++ _ ++ _
    rw [hm]
    simp
  · unfold handleEvents
    rw [hok]
    show (_ ++ _ ++ [Event.success "OK"]).getLast? = _
    simp
  · exact handleDB_assignments opts db c dl w hc hd hw
  · unfold handleDB
    rw [hok]
    show (runSeed _ _ _ _).1.comments = _
    rw [hseed.1]
    exact runMain_comments opts db c dl w

theorem stats_recalc_per_student_assignment_witness :
    ∃ tail,
      handleEvents wOpts wDB =
        ((runMain wOpts wDB wCourse wDL wW).1.studentAssignments.filter
            (fun sa =>
              sa.assignmentId == (runMain wOpts wDB wCourse wDL wW).2.id)).map
          (fun sa => Event.statsRecalc sa.id) ++ tail ∧
      (handleEvents wOpts wDB).getLast? = some (Event.success "OK") :=
  stats_recalc_per_student_assignment wOpts wDB wCourse wDL wW rfl rfl rfl

def wOpts3 : Opts :=
  ⟨CourseSelector.byId 1, " HW1 ", "2030-01-02 03:04", "online", 0, "1.00",
    true, none, none⟩

theorem seed_review_degrades_gracefully_witness :
    (handle wOpts3 wDB).1 = Except.ok () ∧
    (∃ m, Event.warning m ∈ handleEvents wOpts3 wDB) ∧
    (handleEvents wOpts3 wDB).getLast? = some (Event.success "OK") ∧
    (handleDB wOpts3 wDB).assignments =
      (upsertOf wOpts3 wDB wCourse wDL wW).1.assignments ∧
    (handleDB wOpts3 wDB).comments = wDB.comments :=
  seed_review_degrades_gracefully wOpts3 wDB wCourse wDL wW rfl rfl rfl rfl
    (Or.inl rfl)

/-! ### C9: idempotency of a second identical run -/

/-- How many Assignment rows carry a given (course, title) key. -/
def assignmentCount (db : DB) (cid : Nat) (t : String) : Nat :=
  db.assignments.countP (fun a => a.courseId == cid && a.title == t)

/-- How many SOLUTION comments a StudentAssignment has. -/
def solutionCount (db : DB) (saId : Nat) : Nat :=
  db.comments.countP
    (fun cm => cm.studentAssignmentId == saId && cm.type == "solution")

/-- Primary keys of assignment rows are distinct and below the allocator
counter — the invariant a relational primary key provides. -/
def assignmentIdsOk (db : DB) : Prop :=
  (db.assignments.map (fun a => a.id)).Nodup ∧
  ∀ a ∈ db.assignments, a.id < db.nextAssignmentId

theorem assignmentCount_congr {db1 db2 : DB}
    (h : db1.assignments = db2.assignments) (cid : Nat) (t : String) :
    assignmentCount db1 cid t = assignmentCount db2 cid t := by
  unfold assignmentCount
  rw [h]

theorem solutionCount_congr {db1 db2 : DB} (h : db1.comments = db2.comments)
    (i : Nat) : solutionCount db1 i = solutionCount db2 i := by
  unfold solutionCount
  rw [h]

theorem lookupCourse_congr {db1 db2 : DB} (h : db1.courses = db2.courses)
    (s : CourseSelector) : lookupCourse db1 s = lookupCourse db2 s := by
  cases s <;> unfold lookupCourse <;> rw [h]

theorem idsOk_congr {db1 : DB} (db2 : DB)
    (ha : db1.assignments = db2.assignments)
    (hn : db1.nextAssignmentId = db2.nextAssignmentId) :
    assignmentIdsOk db2 → assignmentIdsOk db1 := by
  unfold assignmentIdsOk
  rw [ha, hn]
  exact id

theorem upsert_found_parts (db : DB) (c : Course) (t : String)
    (dl : DateTimeUTC) (ms : Int) (w : DecimalV) (st tz : String)
    (a : Assignment) (ha : findAssignment db c.id t = some a) :
    (upsertAssignment db c t dl ms w st tz).1.assignments =
      db.assignments.map (fun x =>
        if x.id == a.id then updatedAssignment a dl ms w st tz else x) ∧
    (upsertAssignment db c t dl ms w st tz).1.nextAssignmentId =
      db.nextAssignmentId := by
  unfold upsertAssignment
  rw [ha]
  exact ⟨rfl, rfl⟩

theorem upsert_new_parts (db : DB) (c : Course) (t : String)
    (dl : DateTimeUTC) (ms : Int) (w : DecimalV) (st tz : String)
    (ha : findAssignment db c.id t = none) :
    (upsertAssignment db c t dl ms w st tz).1.assignments =
      db.assignments ++
        [⟨db.nextAssignmentId, c.id, t, "Seeded assignment", dl, ms, w,
          st, tz, "manual"⟩] ∧
    (upsertAssignment db c t dl ms w st tz).1.nextAssignmentId =
      db.nextAssignmentId + 1 := by
  unfold upsertAssignment
  rw [ha]
  exact ⟨rfl, rfl⟩

theorem map_update_ids (l : List Assignment) (a : Assignment)
    (dl : DateTimeUTC) (ms : Int) (w : DecimalV) (st tz : String) :
    (l.map (fun x =>
        if x.id == a.id then updatedAssignment a dl ms w st tz else x)).map
      (fun y => y.id) = l.map (fun y => y.id) := by
  rw [List.map_map]
  apply List.map_congr_left
  intro x _
  by_cases hx : x.id = a.id <;> simp [Function.comp, hx, updatedAssignment]

theorem upsert_ids_ok (db : DB) (c : Course) (t : String) (dl : DateTimeUTC)
    (ms : Int) (w : DecimalV) (st tz : String) (h : assignmentIdsOk db) :
    assignmentIdsOk (upsertAssignment db c t dl ms w st tz).1 := by
  obtain ⟨hnd, hbd⟩ := h
  unfold assignmentIdsOk
  cases hfa : findAssignment db c.id t with
  | some a =>
    obtain ⟨hA, hN⟩ := upsert_found_parts db c t dl ms w st tz a hfa
    constructor
    · rw [hA, map_update_ids]
      exact hnd
    · rw [hA, hN]
      intro x hx
      obtain ⟨y, hy, hyx⟩ := List.mem_map.mp hx
      have hxid : x.id = y.id := by
        rw [← hyx]
        by_cases hz : y.id = a.id <;> simp [hz, updatedAssignment]
      rw [hxid]
      exact hbd y hy
  | none =>
    obtain ⟨hA, hN⟩ := upsert_new_parts db c t dl ms w st tz hfa
    constructor
    · rw [hA, List.map_append, List.nodup_append]
      refine ⟨hnd, by simp, ?_⟩
      intro x hx hx2
      obtain ⟨y, hy, hyx⟩ := List.mem_map.mp hx
      have hlt : x < db.nextAssignmentId := hyx ▸ hbd y hy
      simp only [List.map_cons, List.map_nil, List.mem_singleton] at hx2
      exact absurd (hx2 ▸ hlt) (lt_irrefl _)
    · rw [hA, hN]
      intro x hx
      rcases List.mem_append.mp hx with hx | hx
      · exact Nat.lt_succ_of_lt (hbd x hx)
      · rw [List.mem_singleton] at hx
        rw [hx]
        exact Nat.lt_succ_self _

theorem handleDB_cases (opts : Opts) (db : DB) :
    handleDB opts db = db ∨
    ∃ c dl w, lookupCourse db opts.courseSel = some c ∧
      parseDeadline opts.deadline = some dl ∧
      parseDecimal opts.weight = some w ∧
      handleDB opts db =
        (runSeed opts (runMain opts db c dl w).1 c (runMain opts db c dl w).2).1 := by
  unfold handleDB handle
  cases hc : lookupCourse db opts.courseSel with
  | none => exact Or.inl rfl
  | some c =>
    cases hd : parseDeadline opts.deadline with
    | none => exact Or.inl rfl
    | some dl =>
      cases hw : parseDecimal opts.weight with
      | none => exact Or.inl rfl
      | some w => exact Or.inr ⟨c, dl, w, rfl, rfl, rfl, rfl⟩

theorem upsertOf_courses (opts : Opts) (db : DB) (c : Course)
    (dl : DateTimeUTC) (w : DecimalV) :
    (upsertOf opts db c dl w).1.courses = db.courses :=
  (upsert_pres_core db c (stripStr opts.title) dl (effMaxScore opts) w
    opts.submission_type (courseTZ c)).2.2.1

theorem runMain_courses (opts : Opts) (db : DB) (c : Course)
    (dl : DateTimeUTC) (w : DecimalV) :
    (runMain opts db c dl w).1.courses = db.courses := by
  show (bulkCreateStudentAssignments _ _).courses = _
  rw [bulk_courses]
  exact upsertOf_courses opts db c dl w

theorem upsertOf_nextAssignmentId_eq (opts : Opts) (db : DB) (c : Course)
    (dl : DateTimeUTC) (w : DecimalV) :
    (upsertOf opts db c dl w).1.nextAssignmentId =
      (upsertAssignment db c (stripStr opts.title) dl (effMaxScore opts) w
        opts.submission_type (courseTZ c)).1.nextAssignmentId := rfl

theorem handleDB_courses (opts : Opts) (db : DB) :
    (handleDB opts db).courses = db.courses := by
  rcases handleDB_cases opts db with h | ⟨c, dl, w, _, _, _, h⟩
  · rw [h]
  · rw [h, (runSeed_pres opts _ c _).2.1, runMain_courses]

theorem handleDB_ids_ok (opts : Opts) (db : DB) (h : assignmentIdsOk db) :
    assignmentIdsOk (handleDB opts db) := by
  rcases handleDB_cases opts db with heq | ⟨c, dl, w, _, _, _, heq⟩
  · rw [heq]
    exact h
  · rw [heq]
    apply idsOk_congr (upsertOf opts db c dl w).1
    · rw [(runSeed_pres opts _ c _).1]
      show (bulkCreateStudentAssignments _ _).assignments = _
      rw [bulk_assignments]
    · rw [(runSeed_pres opts _ c _).2.2.2.2]
      show (bulkCreateStudentAssignments _ _).nextAssignmentId = _
      rw [bulk_nextAssignmentId]
    · exact upsert_ids_ok db c (stripStr opts.title) dl (effMaxScore opts) w
        opts.submission_type (courseTZ c) h

theorem find?_isSome_of_mem {α : Type} (p : α → Bool) {l : List α} (x : α)
    (hx : x ∈ l) (hp : p x = true) : ∃ y, l.find? p = some y := by
  have : (l.find? p).isSome := List.find?_isSome.mpr ⟨x, hx, hp⟩
  exact Option.isSome_iff_exists.mp this

theorem handleDB_find_some (opts : Opts) (db : DB) (c : Course)
    (dl : DateTimeUTC) (w : DecimalV)
    (hc : lookupCourse db opts.courseSel = some c)
    (hd : parseDeadline opts.deadline = some dl)
    (hw : parseDecimal opts.weight = some w) :
    ∃ a2, findAssignment (handleDB opts db) c.id (stripStr opts.title) =
      some a2 := by
  have hA := handleDB_assignments opts db c dl w hc hd hw
  show ∃ a2, (handleDB opts db).assignments.find?
    (fun a => a.courseId == c.id && a.title == stripStr opts.title) = some a2
  rw [hA]
  cases hfa : findAssignment db c.id (stripStr opts.title) with
  | none =>
    obtain ⟨hL, _⟩ := upsert_new_parts db c (stripStr opts.title) dl
      (effMaxScore opts) w opts.submission_type (courseTZ c) hfa
    show ∃ a2, (upsertAssignment db c (stripStr opts.title) dl
      (effMaxScore opts) w opts.submission_type
      (courseTZ c)).1.assignments.find? _ = some a2
    rw [hL]
    exact find?_isSome_of_mem _ _
      (List.mem_append_right _ (List.mem_singleton_self _)) (by simp)
  | some a =>
    obtain ⟨hL, _⟩ := upsert_found_parts db c (stripStr opts.title) dl
      (effMaxScore opts) w opts.submission_type (courseTZ c) a hfa
    show ∃ a2, (upsertAssignment db c (stripStr opts.title) dl
      (effMaxScore opts) w opts.submission_type
      (courseTZ c)).1.assignments.find? _ = some a2
    rw [hL]
    have hfa2 : db.assignments.find?
        (fun a => a.courseId == c.id && a.title == stripStr opts.title) =
        some a := hfa
    have hpa := List.find?_some hfa2
    refine find?_isSome_of_mem _
      (updatedAssignment a dl (effMaxScore opts) w opts.submission_type
        (courseTZ c))
      (List.mem_map.mpr ⟨a, List.mem_of_find?_eq_some hfa2, ?_⟩) ?_
    · simp
    · exact hpa

theorem upsertOf_count_found (opts : Opts) (db : DB) (c : Course)
    (dl : DateTimeUTC) (w : DecimalV)
    (hnd : (db.assignments.map (fun a => a.id)).Nodup)
    (a2 : Assignment)
    (hfa : findAssignment db c.id (stripStr opts.title) = some a2)
    (cid : Nat) (t0 : String) :
    assignmentCount (upsertOf opts db c dl w).1 cid t0 =
      assignmentCount db cid t0 := by
  obtain ⟨hL, _⟩ := upsert_found_parts db c (stripStr opts.title) dl
    (effMaxScore opts) w opts.submission_type (courseTZ c) a2 hfa
  have : assignmentCount (upsertOf opts db c dl w).1 cid t0 =
      (db.assignments.map (fun x =>
        if x.id == a2.id then
          updatedAssignment a2 dl (effMaxScore opts) w opts.submission_type
            (courseTZ c)
        else x)).countP (fun a => a.courseId == cid && a.title == t0) := by
    unfold assignmentCount
    rw [show (upsertOf opts db c dl w).1.assignments =
      (upsertAssignment db c (stripStr opts.title) dl (effMaxScore opts) w
        opts.submission_type (courseTZ c)).1.assignments from rfl, hL]
  rw [this, List.countP_map]
  unfold assignmentCount
  apply List.countP_congr
  intro x hx
  by_cases hz : x.id = a2.id
  · have hxa : x = a2 :=
      List.inj_on_of_nodup_map hnd hx
        (List.mem_of_find?_eq_some hfa) hz
    subst hxa
    simp [Function.comp, updatedAssignment]
  · simp [Function.comp, hz]

theorem ensureSolution_count (db : DB) (saId authorId i : Nat) :
    solutionCount (ensureSolution db saId authorId) i = solutionCount db i ∨
    (i = saId ∧ solutionCount db i = 0 ∧
      solutionCount (ensureSolution db saId authorId) i = 1) := by
  unfold ensureSolution solutionCount
  cases hf : db.comments.find?
      (fun cm => cm.studentAssignmentId == saId && cm.type == "solution") with
  | some sol => exact Or.inl rfl
  | none =>
    by_cases hi : i = saId
    · subst hi
      have hz : db.comments.countP
          (fun cm => cm.studentAssignmentId == i && cm.type == "solution") =
          0 := by
        rw [List.countP_eq_zero]
        intro cm hcm
        have := List.find?_eq_none.mp hf cm hcm
        simpa using this
      refine Or.inr ⟨rfl, hz, ?_⟩
      show List.countP _ (db.comments ++ [_]) = 1
      rw [List.countP_append, hz]
      simp
    · refine Or.inl ?_
      show List.countP _ (db.comments ++ [_]) = _
      rw [List.countP_append]
      have : List.countP
          (fun cm => cm.studentAssignmentId == i && cm.type == "solution")
          [(⟨db.nextCommentId, saId, "solution",
            "Seeded solution for review", authorId, true⟩ :
            AssignmentComment)] = 0 := by
        simp [Ne.symm hi]
      rw [this]
      exact Nat.add_zero _

theorem seedReviewItem_solCount (db : DB) (c : Course) (a : Assignment)
    (su tu : String) (i : Nat) :
    solutionCount (seedReviewItem db c a su tu).1 i = solutionCount db i ∨
    (solutionCount db i = 0 ∧
      solutionCount (seedReviewItem db c a su tu).1 i = 1) := by
  unfold seedReviewItem
  cases hstu : findUser db su with
  | none => exact Or.inl rfl
  | some student =>
    cases htea : findUser db tu with
    | none => exact Or.inl rfl
    | some teacher =>
      dsimp only
      cases hfind : (getOrCreateCT db c.id teacher.id).1.studentAssignments.find?
          (fun sa => sa.assignmentId == a.id && sa.studentId == student.id) with
      | none =>
        exact Or.inl
          (solutionCount_congr (getOrCreateCT_pres db c.id teacher.id).2.1 i)
      | some sa =>
        have hcom : (assignReviewer (getOrCreateCT db c.id teacher.id).1 sa.id
            (getOrCreateCT db c.id teacher.id).2.id).comments = db.comments := by
          rw [(assignReviewer_pres _ _ _).2.1,
            (getOrCreateCT_pres db c.id teacher.id).2.1]
        rcases ensureSolution_count
            (assignReviewer (getOrCreateCT db c.id teacher.id).1 sa.id
              (getOrCreateCT db c.id teacher.id).2.id) sa.id student.id i with
          h | ⟨_, h0, h1⟩
        · exact Or.inl (h.trans (solutionCount_congr hcom i))
        · exact Or.inr ⟨(solutionCount_congr hcom i).symm.trans h0, h1⟩

theorem runSeed_solCount (opts : Opts) (db : DB) (c : Course) (a : Assignment)
    (i : Nat) :
    solutionCount (runSeed opts db c a).1 i = solutionCount db i ∨
    (solutionCount db i = 0 ∧ solutionCount (runSeed opts db c a).1 i = 1) := by
  unfold runSeed
  split
  · split
    · exact Or.inl rfl
    · exact seedReviewItem_solCount db c a _ _ i
  · exact Or.inl rfl

theorem handleDB_solCount (opts : Opts) (db : DB) (i : Nat) :
    solutionCount (handleDB opts db) i = solutionCount db i ∨
    (solutionCount db i = 0 ∧ solutionCount (handleDB opts db) i = 1) := by
  rcases handleDB_cases opts db with h | ⟨c, dl, w, hc, hd, hw, h⟩
  · exact Or.inl (by rw [h])
  · have hmc : solutionCount (runMain opts db c dl w).1 i =
        solutionCount db i :=
      solutionCount_congr (runMain_comments opts db c dl w) i
    rcases runSeed_solCount opts (runMain opts db c dl w).1 c
        (runMain opts db c dl w).2 i with h2 | ⟨h0, h1⟩
    · exact Or.inl (by rw [h, h2, hmc])
    · exact Or.inr ⟨by rw [← hmc]; exact h0, by rw [h]; exact h1⟩

/-- C9: running the command twice with identical arguments is idempotent
for row creation: the second run creates no second Assignment row for
the same (course, title) key, and at most one SOLUTION-type comment
ever exists per StudentAssignment — when one exists, no new solution
comment is created. -/
theorem second_identical_run_idempotent (opts : Opts) (db : DB)
    (cid : Nat) (t0 : String) (i : Nat)
    (hids : assignmentIdsOk db) (hsol : solutionCount db i ≤ 1) :
    assignmentCount (handleDB opts (handleDB opts db)) cid t0 =
      assignmentCount (handleDB opts db) cid t0 ∧
    solutionCount (handleDB opts db) i ≤ 1 ∧
    solutionCount (handleDB opts (handleDB opts db)) i ≤ 1 := by
  have hsol1 : solutionCount (handleDB opts db) i ≤ 1 := by
    rcases handleDB_solCount opts db i with h | ⟨h0, h1⟩
    · rw [h]; exact hsol
    · rw [h1]
  have hsol2 : solutionCount (handleDB opts (handleDB opts db)) i ≤ 1 := by
    rcases handleDB_solCount opts (handleDB opts db) i with h | ⟨h0, h1⟩
    · rw [h]; exact hsol1
    · rw [h1]
  refine ⟨?_, hsol1, hsol2⟩
  rcases handleDB_cases opts db with h | ⟨c, dl, w, hc, hd, hw, h⟩
  · rw [h, h]
  · have hc1 : lookupCourse (handleDB opts db) opts.courseSel = some c := by
      rw [lookupCourse_congr (handleDB_courses opts db)]
      exact hc
    have hids1 : assignmentIdsOk (handleDB opts db) :=
      handleDB_ids_ok opts db hids
    obtain ⟨a2, hfa2⟩ := handleDB_find_some opts db c dl w hc hd hw
    have hA2 := handleDB_assignments opts (handleDB opts db) c dl w hc1 hd hw
    rw [assignmentCount_congr hA2 cid t0]
    exact upsertOf_count_found opts (handleDB opts db) c dl w hids1.1 a2 hfa2
      cid t0

theorem second_identical_run_idempotent_witness :
    assignmentCount (handleDB wOpts (handleDB wOpts wDB)) 1 "HW1" =
      assignmentCount (handleDB wOpts wDB) 1 "HW1" ∧
    solutionCount (handleDB wOpts wDB) 5 ≤ 1 ∧
    solutionCount (handleDB wOpts (handleDB wOpts wDB)) 5 ≤ 1 :=
  second_identical_run_idempotent wOpts wDB 1 "HW1" 5
    ⟨by decide, by decide⟩ (by decide)

end LMS



